import Mathlib

/-!
Verification development for the askama template engine core
(askama_shared: parser.rs, generator.rs, filters/mod.rs, lib.rs).

Byte slices from the Rust source are modelled as `List Char`; the
conversions through `str::from_utf8` in the source correspond to
`String.mk` here.  Fallible code (panics, assertions) is modelled with
`Except String`.
-/

namespace Askama

/-! ### Data model, from askama_shared/src/parser.rs -/

/-- `struct WS(pub bool, pub bool)`: the pair of trim sigil flags on a
tag; `w0` is the Rust field `ws.0` (left sigil), `w1` is `ws.1`. -/
structure WS where
  w0 : Bool
  w1 : Bool
deriving DecidableEq

/-- `enum Target`.  parser.rs declares only the `Name` variant;
generator.rs (write_let, visit_target) additionally matches a `Names`
variant for tuple destructuring, which is therefore included here but is
never produced by the parser in this tree. -/
inductive Target where
  | Name (s : String)
  | Names (ns : List String)

/-- `enum Expr` from parser.rs. -/
inductive Expr where
  | NumLit (s : String)
  | StrLit (s : String)
  | Var (s : String)
  | Attr (obj : Expr) (name : String)
  | Filter (name : String) (args : List Expr)
  | BinOp (op : String) (left : Expr) (right : Expr)
  | Group (inner : Expr)
  | MethodCall (obj : Expr) (name : String) (args : List Expr)

/-- `enum Node` from parser.rs. -/
inductive Node where
  | Lit (lws : String) (val : String) (rws : String)
  | Comment
  | Expr (ws : WS) (val : Askama.Expr)
  | Call (ws : WS) (name : String) (args : List Askama.Expr)
  | LetDecl (ws : WS) (var : Target)
  | Let (ws : WS) (var : Target) (val : Askama.Expr)
  | Cond (conds : List (WS × Option Askama.Expr × List Node)) (ws : WS)
  | Loop (ws1 : WS) (var : Target) (iter : Askama.Expr) (body : List Node) (ws2 : WS)
  | Extends (path : Askama.Expr)
  | BlockDef (ws1 : WS) (name : String) (body : List Node) (ws2 : WS)
  | Block (ws1 : WS) (name : String) (ws2 : WS)
  | Include (ws : WS) (path : String)
  | Macro (ws1 : WS) (name : String) (params : List String) (body : List Node) (ws2 : WS)

/-! ### Filters, from askama_shared/src/filters/mod.rs -/

/-- `fn escapable(b: &u8) -> bool` -/
def escapable (b : Char) : Bool :=
  b == '<' || b == '>' || b == '&'

/-- The `match bytes[*idx]` arms inside `escape`; the `_ => panic!`
default is unreachable because `found` holds only escapable indices. -/
def entity (b : Char) : List Char :=
  if b == '<' then "&lt;".toList
  else if b == '>' then "&gt;".toList
  else if b == '&' then "&amp;".toList
  else []

/-- The `for idx in &found` loop of `escape`, carrying `(res, start)`. -/
def escape_loop (bytes : List Char) : List Nat → List Char × Nat → List Char × Nat
  | [], acc => acc
  | idx :: rest, (res, start) =>
    let res := if start < idx then res ++ (bytes.drop start).take (idx - start) else res
    let res := res ++ entity (bytes.getD idx ' ')
    escape_loop bytes rest (res, idx + 1)

/-- `pub fn escape(s: &fmt::Display) -> Result<String>`: collects the
indices of escapable bytes, then rebuilds the string around them.  Note
the final guard `start < bytes.len() - 1` before copying the tail. -/
def escape (s : List Char) : List Char :=
  let found := (s.enum.filter (fun p => escapable p.2)).map Prod.fst
  if found.isEmpty then s
  else
    let rs := escape_loop s found ([], 0)
    if rs.2 < s.length - 1 then rs.1 ++ s.drop rs.2 else rs.1

/-- Escaping as the specification words it: every `<`, `>`, `&` replaced
by its entity and every other byte kept in place.  Used only to compare
the source implementation against the spec. -/
def escape_spec (s : List Char) : List Char :=
  (s.map (fun c =>
    if c = '<' then "&lt;".toList
    else if c = '>' then "&gt;".toList
    else if c = '&' then "&amp;".toList
    else [c])).flatten

/-! ### Safe markup, from askama_shared/src/lib.rs -/

/-- `enum MarkupDisplay` (specialised to string payloads). -/
inductive MarkupDisplay where
  | Safe (t : String)
  | Unsafe (t : String)

/-- `MarkupDisplay::mark_safe`. -/
def mark_safe : MarkupDisplay → MarkupDisplay
  | .Unsafe t => .Safe t
  | m => m

/-- `pub fn safe(...)` from filters/mod.rs: `v.into()` builds the
`Unsafe` variant, then `mark_safe` upgrades it. -/
def safe (v : String) : MarkupDisplay :=
  mark_safe (.Unsafe v)

/-- The `Display` impl for `MarkupDisplay` in lib.rs: `Unsafe` payloads
go through `filters::escape`, `Safe` payloads are written verbatim. -/
def markup_fmt : MarkupDisplay → List Char
  | .Unsafe t => escape t.toList
  | .Safe t => t.toList

/-! ### Parser embedding, from askama_shared/src/parser.rs

The parser is written with nom 2 macros.  `IResult` and the combinators
used by the source (`tag_s!`, `opt!`, `alt!`, `many0!`, `ws!`,
`delimited!`, `is_not!`, `take_until_s!`, `nom::digit`) are embedded
below; recursive grammar productions take an explicit fuel argument and
are run with ample fuel by `parse`. -/

inductive IResult (α : Type) where
  | Done (rest : List Char) (val : α)
  | Error
  | Incomplete

/-- The type of an embedded nom parser over byte input. -/
def P (α : Type) : Type := List Char → IResult α

/-- Sequencing of parsers (the `>>` steps of `do_parse!`). -/
def pbind (p : P α) (f : α → P β) : P β := fun i =>
  match p i with
  | .Done r v => f v r
  | .Error => .Error
  | .Incomplete => .Incomplete

/-- Mapping over a parse result (`map!`). -/
def pmap (p : P α) (f : α → β) : P β := fun i =>
  match p i with
  | .Done r v => .Done r (f v)
  | .Error => .Error
  | .Incomplete => .Incomplete

/-- Succeed without consuming input. -/
def ppure (v : α) : P α := fun i => .Done i v

/-- Prefix test used by `tag_s!`. -/
def starts_with : List Char → List Char → Bool
  | [], _ => true
  | _ :: _, [] => false
  | c :: cs, d :: ds => c == d && starts_with cs ds

/-- `tag_s!(t)`: match the literal bytes of `t`. -/
def tag_s (t : String) : P (List Char) := fun i =>
  if starts_with t.toList i then .Done (i.drop t.toList.length) t.toList
  else .Error

/-- `char!(c)`. -/
def charTok (c : Char) : P Char := fun i =>
  match i with
  | d :: rest => if d == c then .Done rest c else .Error
  | [] => .Incomplete

/-- `opt!`: turn failure into `None` without consuming. -/
def opt (p : P α) : P (Option α) := fun i =>
  match p i with
  | .Done r v => .Done r (some v)
  | .Error => .Done i none
  | .Incomplete => .Incomplete

/-- `alt!` over two alternatives; wider `alt!`s are nested. -/
def alt2 (p q : P α) : P α := fun i =>
  match p i with
  | .Error => q i
  | r => r

/-- First index satisfying the predicate (`Iterator::position`). -/
def position (p : Char → Bool) : List Char → Option Nat
  | [] => none
  | c :: cs => if p c then some 0 else (position p cs).map (· + 1)

/-- Last index satisfying the predicate (`Iterator::rposition`). -/
def rposition (p : Char → Bool) (l : List Char) : Option Nat :=
  (position p l.reverse).map (fun i => l.length - 1 - i)

/-- `is_not!(set)`: consume one or more bytes outside `set`; an empty
match is an error, running off the end of input is `Incomplete`. -/
def is_not (set : List Char) : P (List Char) := fun i =>
  match position (fun c => set.contains c) i with
  | some 0 => .Error
  | some n => .Done (i.drop n) (i.take n)
  | none => .Incomplete

/-- `nom::digit`: one or more ASCII digits. -/
def digit : P (List Char) := fun i =>
  match i with
  | [] => .Incomplete
  | c :: _ =>
    if !(c.toNat ≥ 48 && c.toNat ≤ 57) then .Error
    else
      match position (fun d => !(d.toNat ≥ 48 && d.toNat ≤ 57)) i with
      | some n => .Done (i.drop n) (i.take n)
      | none => .Incomplete

/-- The whitespace set eaten by nom's `ws!`. -/
def nom_space (c : Char) : Bool :=
  c == ' ' || c == '\t' || c == '\r' || c == '\n'

/-- Drop leading nom whitespace. -/
def dropSpace (i : List Char) : List Char :=
  i.dropWhile nom_space

/-- `ws!(p)`: run `p` with surrounding whitespace stripped. -/
def wsw (p : P α) : P α := fun i =>
  match p (dropSpace i) with
  | .Done r v => .Done (dropSpace r) v
  | .Error => .Error
  | .Incomplete => .Incomplete

/-- `many0!` as in nom 2: stop at end of input or on failure of the
inner parser; a successful inner parse that consumes nothing is an
error.  The fuel is bounded by the input length, which suffices because
every loop iteration consumes at least one byte. -/
def many0_go (p : P α) : Nat → List Char → List α → IResult (List α)
  | fuel, i, acc =>
    if i.isEmpty then .Done i acc.reverse
    else
      match p i with
      | .Error => .Done i acc.reverse
      | .Incomplete => .Incomplete
      | .Done i2 o =>
        if i2.length == i.length then .Error
        else
          match fuel with
          | 0 => .Error
          | fuel2 + 1 => many0_go p fuel2 i2 (o :: acc)

def many0 (p : P α) : P (List α) := fun i =>
  many0_go p i.length i []

/-- Index of the first occurrence of `pat` as a sub-sequence. -/
def find_sub (pat : List Char) : List Char → Option Nat
  | [] => if starts_with pat [] then some 0 else none
  | c :: cs =>
    if starts_with pat (c :: cs) then some 0
    else (find_sub pat cs).map (· + 1)

/-- `take_until_s!(t)`: consume up to the first occurrence of `t`. -/
def take_until (t : String) : P (List Char) := fun i =>
  match find_sub t.toList i with
  | some n => .Done (i.drop n) (i.take n)
  | none => .Incomplete

/-- The closure named `is_ws` inside `split_ws_parts`.  Beware: the
source gives this name to the test for a NON-whitespace byte. -/
def is_ws (c : Char) : Bool :=
  c != ' ' && c != '\t' && c != '\r' && c != '\n'

/-- `fn split_ws_parts(s: &[u8]) -> Node`: split one raw literal chunk
at its first and last non-whitespace byte. -/
def split_ws_parts (s : List Char) : Node :=
  if s.isEmpty then .Lit (String.mk s) (String.mk s) (String.mk s)
  else
    match position is_ws s with
    | none => .Lit (String.mk s) "" ""
    | some start =>
      match rposition is_ws s with
      | none => .Lit (String.mk (s.take start)) (String.mk (s.drop start)) ""
      | some e =>
        .Lit (String.mk (s.take start))
             (String.mk ((s.drop start).take (e + 1 - start)))
             (String.mk (s.drop (e + 1)))

/-- The `ContentState` machine of `take_content`: index of the first
position where a `\x7b` is followed by one of `\x7b`, `%`, `#`. -/
def find_tag_start : List Char → Option Nat
  | c :: d :: rest =>
    if c == '\x7b' && (d == '\x7b' || d == '%' || d == '#') then some 0
    else (find_tag_start (d :: rest)).map (· + 1)
  | _ => none

/-- `fn take_content(i: &[u8]) -> IResult<&[u8], Node>`: consume raw
literal bytes up to the next tag opener.  When no tag opener exists the
whole input is consumed (`Done(&i[..0], ..)`); a tag opener at offset 0
is an error. -/
def take_content : P Node := fun i =>
  match find_tag_start i with
  | none => .Done (i.take 0) (split_ws_parts i)
  | some 0 => .Error
  | some start => .Done (i.drop start) (split_ws_parts (i.take start))

/-- `nom::is_alphabetic` on a byte. -/
def is_alphabetic (c : Char) : Bool :=
  (65 ≤ c.toNat && c.toNat ≤ 90) || (97 ≤ c.toNat && c.toNat ≤ 122)

/-- `nom::is_alphanumeric` on a byte. -/
def is_alphanumeric (c : Char) : Bool :=
  is_alphabetic c || (48 ≤ c.toNat && c.toNat ≤ 57)

/-- `fn identifier(input: &[u8]) -> IResult<&[u8], &str>`.  The source
indexes `input[0]` unconditionally, so empty input (reachable only at
end of template) is modelled as an error; when every byte continues an
identifier the source returns just the first byte. -/
def identifier : P String := fun input =>
  match input with
  | [] => .Error
  | c0 :: rest =>
    if !is_alphabetic c0 && c0 != '_' then .Error
    else
      match position (fun ch => !(is_alphanumeric ch || ch == '_')) rest with
      | some k => .Done (input.drop (k + 1)) (String.mk (input.take (k + 1)))
      | none => .Done (input.drop 1) (String.mk (input.take 1))

/-- `expr_num_lit`. -/
def expr_num_lit : P Expr :=
  pmap digit (fun s => .NumLit (String.mk s))

/-- `expr_str_lit`: `delimited!(char!(34), is_not!(34), char!(34))`.
The inner `is_not!` demands at least one byte before the closing
quote. -/
def expr_str_lit : P Expr :=
  pbind (charTok '"') (fun _ =>
  pbind (is_not ['"']) (fun s =>
  pmap (charTok '"') (fun _ => .StrLit (String.mk s))))

/-- `expr_var`. -/
def expr_var : P Expr :=
  pmap identifier (fun s => .Var s)

/-- `target_single`: the only target production of this parser; it
recognises a single identifier and never a tuple pattern. -/
def target_single : P Target :=
  pmap identifier (fun s => .Name s)

/-- `fn debug(...)`: prints its input and always errors; `expr_filtered`
runs it under `opt!` so it is a no-op for parsing. -/
def debug : P String := fun _ => .Error

/-- `parameters` (macro formal parameter list). -/
def parameters : P (List String) :=
  pbind (tag_s "(") (fun _ =>
  pbind (opt (pbind (wsw identifier) (fun arg0 =>
        pmap (many0 (pbind (tag_s ",") (fun _ => wsw identifier)))
          (fun args => arg0 :: args))))
    (fun vals =>
  pmap (tag_s ")") (fun _ => vals.getD [])))

/-- One `alt!` branch per operator tag. -/
def alt_tags : List String → P (List Char)
  | [] => fun _ => .Error
  | t :: ts => alt2 (tag_s t) (alt_tags ts)

/-- The body of the `expr_prec_layer!` macro: `left op right`, falling
back to the inner layer (which is re-parsed from scratch). -/
def prec_layer (inner : P Expr) (ops : List String) : P Expr :=
  alt2
    (pbind inner (fun left =>
     pbind (wsw (alt_tags ops)) (fun op =>
     pmap inner (fun right => .BinOp (String.mk op) left right))))
    inner

/-- `block_comment`. -/
def block_comment : P Node :=
  pbind (tag_s "\x7b#") (fun _ =>
  pbind (take_until "#\x7d") (fun _ =>
  pmap (tag_s "#\x7d") (fun _ => Node.Comment)))

mutual

def expr_single : Nat → P Expr
  | 0 => fun _ => .Error
  | n + 1 => alt2 expr_num_lit (alt2 expr_str_lit (alt2 expr_var (expr_group n)))

def expr_group : Nat → P Expr
  | 0 => fun _ => .Error
  | n + 1 =>
    pbind (charTok '(') (fun _ =>
    pbind (expr_any n) (fun e =>
    pmap (charTok ')') (fun _ => .Group e)))

def arguments : Nat → P (List Expr)
  | 0 => fun _ => .Error
  | n + 1 =>
    pbind (tag_s "(") (fun _ =>
    pbind (opt (pbind (wsw (expr_any n)) (fun arg0 =>
          pmap (many0 (pbind (tag_s ",") (fun _ => wsw (expr_any n))))
            (fun args => arg0 :: args))))
      (fun args =>
    pmap (tag_s ")") (fun _ => args.getD [])))

def attr : Nat → P (String × Option (List Expr))
  | 0 => fun _ => .Error
  | n + 1 =>
    pbind (tag_s ".") (fun _ =>
    pbind identifier (fun a =>
    pmap (opt (arguments n)) (fun args => (a, args))))

def expr_attr : Nat → P Expr
  | 0 => fun _ => .Error
  | n + 1 =>
    pbind (expr_single n) (fun obj =>
    pmap (many0 (attr n)) (fun attrs =>
      attrs.foldl (fun res p =>
        match p.2 with
        | some args => .MethodCall res p.1 args
        | none => .Attr res p.1) obj))

def filter : Nat → P (String × Option (List Expr))
  | 0 => fun _ => .Error
  | n + 1 =>
    pbind (tag_s "|") (fun _ =>
    pbind identifier (fun fname =>
    pmap (opt (arguments n)) (fun args => (fname, args))))

def expr_filtered : Nat → P Expr
  | 0 => fun _ => .Error
  | n + 1 =>
    pbind (opt debug) (fun _ =>
    pbind (expr_attr n) (fun obj =>
    pmap (many0 (filter n)) (fun fs =>
      fs.foldl (fun res p => Expr.Filter p.1 (res :: p.2.getD [])) obj)))

def expr_muldivmod : Nat → P Expr
  | 0 => fun _ => .Error
  | n + 1 => prec_layer (expr_filtered n) ["*", "/", "%"]

def expr_addsub : Nat → P Expr
  | 0 => fun _ => .Error
  | n + 1 => prec_layer (expr_muldivmod n) ["+", "-"]

def expr_shifts : Nat → P Expr
  | 0 => fun _ => .Error
  | n + 1 => prec_layer (expr_addsub n) [">>", "<<"]

def expr_band : Nat → P Expr
  | 0 => fun _ => .Error
  | n + 1 => prec_layer (expr_shifts n) ["&"]

def expr_bxor : Nat → P Expr
  | 0 => fun _ => .Error
  | n + 1 => prec_layer (expr_band n) ["^"]

def expr_bor : Nat → P Expr
  | 0 => fun _ => .Error
  | n + 1 => prec_layer (expr_bxor n) ["|"]

def expr_compare : Nat → P Expr
  | 0 => fun _ => .Error
  | n + 1 => prec_layer (expr_bor n) ["==", "!=", ">=", ">", "<=", "<"]

def expr_and : Nat → P Expr
  | 0 => fun _ => .Error
  | n + 1 => prec_layer (expr_compare n) ["&&"]

def expr_any : Nat → P Expr
  | 0 => fun _ => .Error
  | n + 1 => prec_layer (expr_and n) ["||"]

def expr_node : Nat → P Node
  | 0 => fun _ => .Error
  | n + 1 =>
    pbind (tag_s "\x7b\x7b") (fun _ =>
    pbind (opt (tag_s "-")) (fun pws =>
    pbind (wsw (expr_any n)) (fun e =>
    pbind (opt (tag_s "-")) (fun nws =>
    pmap (tag_s "\x7d\x7d") (fun _ =>
      Node.Expr ⟨pws.isSome, nws.isSome⟩ e)))))

def block_call : Nat → P Node
  | 0 => fun _ => .Error
  | n + 1 =>
    pbind (opt (tag_s "-")) (fun pws =>
    pbind (wsw (tag_s "call")) (fun _ =>
    pbind (wsw identifier) (fun name =>
    pbind (wsw (arguments n)) (fun args =>
    pmap (opt (tag_s "-")) (fun nws =>
      Node.Call ⟨pws.isSome, nws.isSome⟩ name args)))))

def cond_if : Nat → P Expr
  | 0 => fun _ => .Error
  | n + 1 =>
    pbind (wsw (tag_s "if")) (fun _ => wsw (expr_any n))

def cond_block : Nat → P (WS × Option Expr × List Node)
  | 0 => fun _ => .Error
  | n + 1 =>
    pbind (tag_s "\x7b%") (fun _ =>
    pbind (opt (tag_s "-")) (fun pws =>
    pbind (wsw (tag_s "else")) (fun _ =>
    pbind (opt (cond_if n)) (fun c =>
    pbind (opt (tag_s "-")) (fun nws =>
    pbind (tag_s "%\x7d") (fun _ =>
    pmap (parse_template n) (fun block =>
      (⟨pws.isSome, nws.isSome⟩, c, block))))))))

def block_if : Nat → P Node
  | 0 => fun _ => .Error
  | n + 1 =>
    pbind (opt (tag_s "-")) (fun pws1 =>
    pbind (wsw (cond_if n)) (fun c =>
    pbind (opt (tag_s "-")) (fun nws1 =>
    pbind (tag_s "%\x7d") (fun _ =>
    pbind (parse_template n) (fun block =>
    pbind (many0 (cond_block n)) (fun elifs =>
    pbind (tag_s "\x7b%") (fun _ =>
    pbind (opt (tag_s "-")) (fun pws2 =>
    pbind (wsw (tag_s "endif")) (fun _ =>
    pmap (opt (tag_s "-")) (fun nws2 =>
      Node.Cond ((⟨pws1.isSome, nws1.isSome⟩, some c, block) :: elifs)
        ⟨pws2.isSome, nws2.isSome⟩))))))))))

def block_let : Nat → P Node
  | 0 => fun _ => .Error
  | n + 1 =>
    pbind (opt (tag_s "-")) (fun pws =>
    pbind (wsw (tag_s "let")) (fun _ =>
    pbind (wsw target_single) (fun var =>
    pbind (opt (pbind (wsw (tag_s "=")) (fun _ => wsw (expr_any n)))) (fun val =>
    pmap (opt (tag_s "-")) (fun nws =>
      match val with
      | some v => Node.Let ⟨pws.isSome, nws.isSome⟩ var v
      | none => Node.LetDecl ⟨pws.isSome, nws.isSome⟩ var)))))

def block_for : Nat → P Node
  | 0 => fun _ => .Error
  | n + 1 =>
    pbind (opt (tag_s "-")) (fun pws1 =>
    pbind (wsw (tag_s "for")) (fun _ =>
    pbind (wsw target_single) (fun var =>
    pbind (wsw (tag_s "in")) (fun _ =>
    pbind (wsw (expr_any n)) (fun iter =>
    pbind (opt (tag_s "-")) (fun nws1 =>
    pbind (tag_s "%\x7d") (fun _ =>
    pbind (parse_template n) (fun block =>
    pbind (tag_s "\x7b%") (fun _ =>
    pbind (opt (tag_s "-")) (fun pws2 =>
    pbind (wsw (tag_s "endfor")) (fun _ =>
    pmap (opt (tag_s "-")) (fun _nws2 =>
      -- source: `WS(pws2.is_some(), pws2.is_some())` — the right trim
      -- flag of the endfor tag is taken from the LEFT sigil; the parsed
      -- `nws2` binding is discarded.
      Node.Loop ⟨pws1.isSome, nws1.isSome⟩ var iter block
        ⟨pws2.isSome, pws2.isSome⟩))))))))))))

def block_extends : Nat → P Node
  | 0 => fun _ => .Error
  | _ + 1 =>
    pbind (wsw (tag_s "extends")) (fun _ =>
    pmap (wsw expr_str_lit) (fun name => Node.Extends name))

def block_block : Nat → P Node
  | 0 => fun _ => .Error
  | n + 1 =>
    pbind (opt (tag_s "-")) (fun pws1 =>
    pbind (wsw (tag_s "block")) (fun _ =>
    pbind (wsw identifier) (fun name =>
    pbind (opt (tag_s "-")) (fun nws1 =>
    pbind (tag_s "%\x7d") (fun _ =>
    pbind (parse_template n) (fun contents =>
    pbind (tag_s "\x7b%") (fun _ =>
    pbind (opt (tag_s "-")) (fun pws2 =>
    pbind (wsw (tag_s "endblock")) (fun _ =>
    pbind (opt (wsw (tag_s name))) (fun _ =>
    pmap (opt (tag_s "-")) (fun _nws2 =>
      -- source: `WS(pws2.is_some(), pws2.is_some())`, as in block_for.
      Node.BlockDef ⟨pws1.isSome, nws1.isSome⟩ name contents
        ⟨pws2.isSome, pws2.isSome⟩)))))))))))

def block_include : Nat → P Node
  | 0 => fun _ => .Error
  | _ + 1 =>
    pbind (opt (tag_s "-")) (fun pws =>
    pbind (wsw (tag_s "include")) (fun _ =>
    pbind (wsw expr_str_lit) (fun name =>
    pmap (opt (tag_s "-")) (fun nws =>
      Node.Include ⟨pws.isSome, nws.isSome⟩
        -- the `_ => panic!` arm is unreachable: expr_str_lit only
        -- produces StrLit values.
        (match name with | .StrLit s => s | _ => "")))))

def block_macro : Nat → P Node
  | 0 => fun _ => .Error
  | n + 1 =>
    pbind (opt (tag_s "-")) (fun pws1 =>
    pbind (wsw (tag_s "macro")) (fun _ =>
    pbind (wsw identifier) (fun name =>
    pbind (wsw parameters) (fun params =>
    pbind (opt (tag_s "-")) (fun nws1 =>
    pbind (tag_s "%\x7d") (fun _ =>
    pbind (parse_template n) (fun contents =>
    pbind (tag_s "\x7b%") (fun _ =>
    pbind (opt (tag_s "-")) (fun pws2 =>
    pbind (wsw (tag_s "endmacro")) (fun _ =>
    pmap (opt (tag_s "-")) (fun nws2 =>
      Node.Macro ⟨pws1.isSome, nws1.isSome⟩ name params contents
        ⟨pws2.isSome, nws2.isSome⟩)))))))))))

def block_node : Nat → P Node
  | 0 => fun _ => .Error
  | n + 1 =>
    pbind (tag_s "\x7b%") (fun _ =>
    pbind (alt2 (block_call n) (alt2 (block_let n) (alt2 (block_if n)
          (alt2 (block_for n) (alt2 (block_extends n) (alt2 (block_include n)
          (alt2 ( block_block n) ( block_macro n))))))))
      (fun contents =>
    pmap (tag_s "%\x7d") (fun _ => contents)))

def parse_template : Nat → P (List Node)
  | 0 => fun _ => .Error
  | n + 1 =>
    many0 (alt2 take_content (alt2 block_comment (alt2 (expr_node n) (block_node n))))

end

/-- `pub fn parse(src: &str) -> Vec<Node>`: run the template grammar
and panic on leftover input, parse errors, or incompleteness.  The fuel
bound is generous: each recursive descent step consumes input. -/
def parse (src : String) : Except String (List Node) :=
  match parse_template (32 * (src.length + 2)) src.toList with
  | .Done left res =>
    if left.length > 0 then .error ("unable to parse template:\n\n" ++ String.mk left)
    else .ok res
  | .Error => .error "problems parsing template source"
  | .Incomplete => .error "parsing incomplete"

/-! ### Code generator embedding, from askama_shared/src/generator.rs -/

/-- `enum DisplayWrap`. -/
inductive DisplayWrap where
  | Wrapped
  | Unwrapped
deriving DecidableEq

/-- `EscapeMode` from askama_shared input handling (used through
`state.input.meta.escaping`). -/
inductive EscapeMode where
  | Html
  | None
deriving DecidableEq

/-- The `DisplayWrap` returned by `visit_filter`: `format` and `join`
take early returns as `Unwrapped`; the final test marks `safe`,
`escape`, `e` and `json` as `Wrapped` and everything else as
`Unwrapped`. -/
def visit_filter_wrap (name : String) : DisplayWrap :=
  if name = "format" then .Unwrapped
  else if name = "join" then .Unwrapped
  else if name = "safe" ∨ name = "escape" ∨ name = "e" ∨ name = "json" then .Wrapped
  else .Unwrapped

/-- The `DisplayWrap` returned by `visit_expr`: every visitor except
`visit_filter` returns `Unwrapped` (the panic inside `visit_attr` for
unknown `loop` attributes is modelled by `visit_attr_loop` below). -/
def visit_expr_wrap : Expr → DisplayWrap
  | .NumLit _ => .Unwrapped
  | .StrLit _ => .Unwrapped
  | .Var _ => .Unwrapped
  | .Attr _ _ => .Unwrapped
  | .Filter name _ => visit_filter_wrap name
  | .BinOp _ _ _ => .Unwrapped
  | .Group _ => .Unwrapped
  | .MethodCall _ _ _ => .Unwrapped

/-- The argument `write_expr` passes to `write_fmt` after binding the
visited expression to `askama_expr`, per its
`match (wrapped, &state.input.meta.escaping)`. -/
def write_expr_code (wrapped : DisplayWrap) (escaping : EscapeMode) : String :=
  match wrapped, escaping with
  | .Wrapped, .Html => "askama_expr"
  | .Wrapped, .None => "askama_expr"
  | .Unwrapped, .None => "askama_expr"
  | .Unwrapped, .Html => "&::askama::MarkupDisplay::from(askama_expr)"

/-- The text `visit_attr` emits when the object is the special variable
`loop`: it writes `_loop_index`, appends ` + 1` for `index`, accepts
`index0` bare, and panics on any other attribute name. -/
def visit_attr_loop (attr : String) : Except String String :=
  if attr = "index" then .ok "_loop_index + 1"
  else if attr = "index0" then .ok "_loop_index"
  else .error "unknown loop variable"

/-- Value of the emitted loop-attribute text in an iteration where the
`enumerate()` counter bound to `_loop_index` by `write_loop` is `i`. -/
def eval_loop_var (i : Nat) (txt : String) : Option Nat :=
  if txt = "_loop_index" then some i
  else if txt = "_loop_index + 1" then some (i + 1)
  else none

/-- Output of the generated code for a loop body
`{{ loop.index0 }}:{{ loop.index }};` over `n` items: `write_loop`
drives `(_loop_index, v)` through `enumerate()`, so the counter takes
the values `0 .. n-1`, and each interpolation evaluates the text that
`visit_attr` emitted. -/
def render_index_loop (n : Nat) : String :=
  ((List.range n).map (fun i =>
    toString (((visit_attr_loop "index0").toOption.bind (eval_loop_var i)).getD 0)
      ++ ":" ++
    toString (((visit_attr_loop "index").toOption.bind (eval_loop_var i)).getD 0)
      ++ ";")).foldl (· ++ ·) ""

/-- The whitespace-controller state of `struct Generator`: `buf`
abstracts the emitted `writer.write_str(..)` statements to their payload
strings; `next_ws` and `skip_ws` are as in the source. -/
structure Generator where
  buf : List String
  next_ws : Option String
  skip_ws : Bool

/-- `fn flush_ws(&mut self, ws: &WS)`: emit the pending whitespace
unless the block requests a left trim, then clear it. -/
def flush_ws (g : Generator) (ws : WS) : Generator :=
  if g.next_ws.isSome && !ws.w0 then
    let val := g.next_ws.getD ""
    if !val.isEmpty then { g with buf := g.buf ++ [val], next_ws := none }
    else { g with next_ws := none }
  else { g with next_ws := none }

/-- `fn prepare_ws(&mut self, ws: &WS)`. -/
def prepare_ws (g : Generator) (ws : WS) : Generator :=
  { g with skip_ws := ws.w1 }

/-- `fn handle_ws(&mut self, ws: &WS)`. -/
def handle_ws (g : Generator) (ws : WS) : Generator :=
  prepare_ws (flush_ws g ws) ws

/-- `fn write_lit(&mut self, lws, val, rws)`: asserts that nothing is
pending, writes or buffers the leading whitespace depending on
`skip_ws` and on emptiness of the body, writes the body, and buffers the
trailing whitespace. -/
def write_lit (g : Generator) (lws val rws : String) : Except String Generator :=
  if g.next_ws.isSome then .error "assertion failed: self.next_ws.is_none()"
  else
    match (if !lws.isEmpty then
            if g.skip_ws then Except.ok { g with skip_ws := false }
            else if val.isEmpty then
              if !rws.isEmpty then Except.error "assertion failed: rws.is_empty()"
              else Except.ok { g with next_ws := some lws }
            else Except.ok { g with buf := g.buf ++ [lws] }
          else Except.ok g) with
    | .error e => .error e
    | .ok g1 =>
      let g2 := if !val.isEmpty then { g1 with buf := g1.buf ++ [val] } else g1
      .ok (if !rws.isEmpty then { g2 with next_ws := some rws } else g2)

/-! ### Helper lemmas -/

/-- If `position` finds nothing, the predicate fails everywhere. -/
theorem position_eq_none {p : Char → Bool} :
    ∀ {l : List Char}, position p l = none → ∀ c ∈ l, p c = false := by
  intro l
  induction l with
  | nil => exact fun _ c hc => absurd hc (List.not_mem_nil c)
  | cons a as ih =>
    intro h c hc
    simp only [position] at h
    by_cases hp : p a = true
    · rw [if_pos hp] at h
      exact absurd h (by simp)
    · rw [if_neg hp] at h
      have has : position p as = none := by
        cases hpos : position p as with
        | none => rfl
        | some k => rw [hpos] at h; simp at h
      cases List.mem_cons.mp hc with
      | inl he => subst he; simpa using hp
      | inr hm => exact ih has c hm

/-- If `position` returns `some i`, everything before `i` fails the
predicate and the element at `i` satisfies it. -/
theorem position_eq_some {p : Char → Bool} :
    ∀ {l : List Char} {i : Nat}, position p l = some i →
      (∀ c ∈ l.take i, p c = false) ∧
      ∃ c, l.drop i = c :: l.drop (i + 1) ∧ p c = true := by
  intro l
  induction l with
  | nil => intro i h; simp [position] at h
  | cons a as ih =>
    intro i h
    simp only [position] at h
    by_cases hp : p a = true
    · rw [if_pos hp] at h
      have hi : 0 = i := Option.some.inj h
      subst hi
      exact ⟨by simp, a, by simp, hp⟩
    · rw [if_neg hp] at h
      cases hpos : position p as with
      | none => rw [hpos] at h; simp at h
      | some j =>
        rw [hpos] at h
        have hi : j + 1 = i := by simpa using h
        subst hi
        obtain ⟨htake, c, hdrop, hc⟩ := ih hpos
        refine ⟨?_, c, ?_, hc⟩
        · intro x hx
          rw [List.take_succ_cons] at hx
          cases List.mem_cons.mp hx with
          | inl he => subst he; simpa using hp
          | inr hm => exact htake x hm
        · exact hdrop

/-- An element returned in the `drop` decomposition is an element. -/
theorem getElem?_of_drop_cons {l : List Char} {i : Nat} {c : Char}
    (h : l.drop i = c :: l.drop (i + 1)) : l[i]? = some c := by
  have h0 : (l.drop i)[0]? = some c := by rw [h]; simp
  rw [List.getElem?_drop] at h0
  simpa using h0

/-- When no byte of `s` is escapable, `found` is empty and `escape`
returns its input unchanged (the early `return Ok(s)`). -/
theorem escape_eq_self_of_no_escapable (s : List Char)
    (h : ∀ c ∈ s, escapable c = false) : escape s = s := by
  unfold escape
  have hf : s.enum.filter (fun p => escapable p.2) = [] := by
    rw [List.filter_eq_nil_iff]
    intro a ha
    have ha2 : a.2 ∈ s := by
      have hm := List.mem_map_of_mem Prod.snd ha
      rwa [List.enum_map_snd] at hm
    simp [h a.2 ha2]
  simp [hf]

/-! ### Claim theorems -/

/-- C1.  The claim says `escape` keeps every non-escapable byte of its
input.  The code refutes it: the tail copy after the rewrite loop is
guarded by `start < bytes.len() - 1`, so when exactly one byte follows
the last escapable byte that byte is dropped.  On `"&x"` the code yields
`"&amp;"` while the claimed behaviour (`escape_spec`, the literal
spec wording) yields `"&amp;x"`. -/
theorem escape_drops_byte_after_last_escapable :
    escape "&x".toList = "&amp;".toList ∧
    escape_spec "&x".toList = "&amp;x".toList ∧
    escape "&x".toList ≠ escape_spec "&x".toList := by
  decide

/-- C2, counterexample.  `S = "<"` contains an escapable byte and no
entity, yet `escape (escape S) = "&amp;lt;" ≠ "&lt;" = escape S`: the
second pass re-escapes the `&` introduced by the first. -/
theorem escape_not_idempotent_on_lt :
    escape "<".toList = "&lt;".toList ∧
    escape (escape "<".toList) = "&amp;lt;".toList ∧
    escape (escape "<".toList) ≠ escape "<".toList := by
  decide

/-- C2, amended.  `escape` is idempotent exactly on the strings with no
occurrence of `<`, `>` or `&` (on which it is the identity); any string
with an escapable byte is changed again by the second pass. -/
theorem escape_idempotent_without_escapables (s : List Char)
    (h : ∀ c ∈ s, escapable c = false) :
    escape (escape s) = escape s := by
  have h2 := escape_eq_self_of_no_escapable s h
  rw [h2]
  exact h2

/-- C2, witness for the amended theorem at a concrete escapable-free
string. -/
theorem escape_idempotent_without_escapables_witness :
    escape (escape "ab".toList) = escape "ab".toList :=
  escape_idempotent_without_escapables "ab".toList (by decide)

/-- C3.  The claim says the trailing WS of `endfor` and `endblock`
mirrors the sigils of the closing tag.  The code builds it as
`WS(pws2.is_some(), pws2.is_some())`, duplicating the left sigil and
discarding the parsed right sigil: a closing tag carrying only a
right-side `-` produces the trailing pair `(false, false)` instead of
the claimed `(false, true)`. -/
theorem end_tag_ws_uses_left_sigil_twice :
    parse "{% for x in y %}{% endfor -%}" =
      .ok [.Loop ⟨false, false⟩ (.Name "x") (.Var "y") [] ⟨false, false⟩] ∧
    parse "{% block b %}x{% endblock -%}" =
      .ok [.BlockDef ⟨false, false⟩ "b" [.Lit "" "x" ""] ⟨false, false⟩] :=
  ⟨rfl, rfl⟩

/-- C4.  The claim (and the test `test_let` in testing/tests/vars.rs)
needs `\x7b% let (a, b) = s %\x7d` to parse, but `Target` in parser.rs
has only the `Name` variant and `target_single` recognises a single
identifier, so the tuple pattern aborts parsing with the whole template
as unparsed tail; a single-name `let` parses fine. -/
theorem let_tuple_target_fails_to_parse :
    parse "{% let (a, b) = s %}" =
      .error "unable to parse template:\n\n{% let (a, b) = s %}" ∧
    parse "{% let a = s %}" =
      .ok [.Let ⟨false, false⟩ (.Name "a") (.Var "s")] :=
  ⟨rfl, rfl⟩

/-- C5, counterexample.  With spaces around the pipe, the interpolation
does not parse as a filter at all: `filter` demands the `|` immediately
after the value, so `x | safe` is parsed by the `expr_bor` layer as a
bitwise-or `BinOp`, which the visitor classifies `Unwrapped`; under
`Html` escape mode `write_expr` therefore wraps the value in the
escaping `MarkupDisplay` adapter, contradicting the claimed verbatim
output. -/
theorem spaced_pipe_parses_as_binop :
    parse "{{ x | safe }}" =
      .ok [.Expr ⟨false, false⟩ (.BinOp "|" (.Var "x") (.Var "safe"))] ∧
    visit_expr_wrap (.BinOp "|" (.Var "x") (.Var "safe")) = .Unwrapped ∧
    write_expr_code .Unwrapped .Html = "&::askama::MarkupDisplay::from(askama_expr)" :=
  ⟨rfl, rfl, rfl⟩

/-- C5, amended.  With the pipe written without surrounding spaces the
interpolation parses as `Filter "safe"`; the visitor returns `Wrapped`,
`write_expr` writes the temporary without the escaping adapter even in
`Html` mode, and displaying the `Safe`-marked value produced by the
`safe` filter emits the underlying string verbatim. -/
theorem unspaced_safe_filter_roundtrip (x : String) :
    parse "{{x|safe}}" =
      .ok [.Expr ⟨false, false⟩ (.Filter "safe" [.Var "x"])] ∧
    visit_expr_wrap (.Filter "safe" [.Var "x"]) = .Wrapped ∧
    write_expr_code .Wrapped .Html = "askama_expr" ∧
    markup_fmt (safe x) = x.toList :=
  ⟨rfl, rfl, rfl, rfl⟩

/-- C6.  `write_expr` wraps the temporary in the escaping adapter
exactly when the escape mode is `Html` and the visitor returned
`Unwrapped`; `visit_filter` classifies a filter as `Wrapped` exactly for
the names `safe`, `escape`, `e`, `json`. -/
theorem escape_decision_and_filter_classification :
    (∀ w e, write_expr_code w e = "&::askama::MarkupDisplay::from(askama_expr)" ↔
      (e = .Html ∧ w = .Unwrapped)) ∧
    (∀ name, visit_filter_wrap name = .Wrapped ↔
      (name = "safe" ∨ name = "escape" ∨ name = "e" ∨ name = "json")) := by
  constructor
  · intro w e
    cases w <;> cases e <;> decide
  · intro name
    by_cases h1 : name = "format"
    · subst h1; decide
    by_cases h2 : name = "join"
    · subst h2; decide
    by_cases h3 : name = "safe"
    · subst h3; decide
    by_cases h4 : name = "escape"
    · subst h4; decide
    by_cases h5 : name = "e"
    · subst h5; decide
    by_cases h6 : name = "json"
    · subst h6; decide
    simp [visit_filter_wrap, h1, h2, h3, h4, h5, h6]

/-- C7, counterexample.  The quoted template uses the array literal
`[a,b,c]` as the iterable, but the expression grammar has no array
production (`expr_single` is `num | str | var | group`), so the template
aborts compilation at parse time instead of rendering. -/
theorem array_literal_loop_fails_to_parse :
    parse "{% for v in [a,b,c] %}{{ loop.index0 }}:{{ loop.index }};{% endfor %}" =
      .error ("unable to parse template:\n\n" ++
        "{% for v in [a,b,c] %}{{ loop.index0 }}:{{ loop.index }};{% endfor %}") :=
  rfl

/-- C7, amended.  For an iterable the grammar accepts (a context
variable `s`), the loop body parses to `loop.index0`/`loop.index`
attribute accesses; `visit_attr` maps them to the `enumerate()` counter
and the counter plus one, three iterations print `0:1;1:2;2:3;`, and
every other `loop` attribute is fatal. -/
theorem loop_index_semantics :
    parse "{% for v in s %}{{ loop.index0 }}:{{ loop.index }};{% endfor %}" =
      .ok [.Loop ⟨false, false⟩ (.Name "v") (.Var "s")
        [.Expr ⟨false, false⟩ (.Attr (.Var "loop") "index0"),
         .Lit "" ":" "",
         .Expr ⟨false, false⟩ (.Attr (.Var "loop") "index"),
         .Lit "" ";" ""] ⟨false, false⟩] ∧
    visit_attr_loop "index0" = .ok "_loop_index" ∧
    visit_attr_loop "index" = .ok "_loop_index + 1" ∧
    (∀ i, eval_loop_var i "_loop_index" = some i ∧
          eval_loop_var i "_loop_index + 1" = some (i + 1)) ∧
    render_index_loop 3 = "0:1;1:2;2:3;" ∧
    (∀ a, a ≠ "index" → a ≠ "index0" →
      visit_attr_loop a = .error "unknown loop variable") := by
  refine ⟨rfl, rfl, rfl, fun i => ⟨rfl, rfl⟩, rfl, fun a h1 h2 => ?_⟩
  unfold visit_attr_loop
  rw [if_neg h1, if_neg h2]

/-- C7, witness for the amended theorem: the three-iteration output and
the fatal unknown attribute `first`. -/
theorem loop_index_semantics_witness :
    render_index_loop 3 = "0:1;1:2;2:3;" ∧
    visit_attr_loop "first" = .error "unknown loop variable" :=
  ⟨loop_index_semantics.2.2.2.2.1,
   loop_index_semantics.2.2.2.2.2 "first" (by decide) (by decide)⟩

/-- C8.  The whitespace controller keeps at most one pending unit (a
call of `write_lit` while one is pending hits the entry assertion), and
`flush_ws` emits the pending unit exactly when the trim-left flag is
unset, leaving nothing pending either way. -/
theorem ws_controller_invariant (g : Generator) (ws : WS)
    (lws val rws v : String) :
    (g.next_ws = some v →
      write_lit g lws val rws = .error "assertion failed: self.next_ws.is_none()") ∧
    (flush_ws g ws).next_ws = none ∧
    (g.next_ws = some v → v ≠ "" →
      (flush_ws g ws).buf = g.buf ++ (if ws.w0 then [] else [v])) ∧
    (g.next_ws = none → (flush_ws g ws).buf = g.buf) := by
  refine ⟨?_, ?_, ?_, ?_⟩
  · intro h
    unfold write_lit
    rw [h]
    rfl
  · unfold flush_ws
    split
    · dsimp only
      split <;> rfl
    · rfl
  · intro h hne
    unfold flush_ws
    rw [h]
    cases hw : ws.w0 with
    | true => simp
    | false =>
      simp only [Option.isSome_some, Bool.not_false, Bool.and_true, if_true]
      have hval : (some v).getD "" = v := rfl
      rw [hval]
      have : v.isEmpty = false := by
        cases hv : v.isEmpty
        · rfl
        · exact absurd ((String.isEmpty_iff v).mp hv) hne
      simp [this]
  · intro h
    unfold flush_ws
    rw [h]
    rfl

/-- C8, witness: a pending unit makes `write_lit` assert, and `flush_ws`
with trim-left unset emits it and clears the slot. -/
theorem ws_controller_invariant_witness :
    write_lit ⟨[], some " ", false⟩ "a" "b" "c" =
      .error "assertion failed: self.next_ws.is_none()" ∧
    (flush_ws ⟨[], some " ", false⟩ ⟨false, false⟩).next_ws = none ∧
    (flush_ws ⟨[], some " ", false⟩ ⟨false, false⟩).buf = [" "] := by
  have h := ws_controller_invariant ⟨[], some " ", false⟩ ⟨false, false⟩ "a" "b" "c" " "
  refine ⟨h.1 rfl, h.2.1, ?_⟩
  have hb := h.2.2.1 rfl (by decide)
  simpa using hb

/-- C9.  `split_ws_parts` returns a `Lit` whose three pieces
reassemble the chunk, whose outer pieces are pure whitespace runs that
are maximal (the body starts and ends with non-whitespace bytes), and
which collapses to `(chunk, "", "")` on an all-whitespace chunk.
Recall that the predicate the source names `is_ws` is true on
NON-whitespace bytes. -/
theorem split_ws_parts_correct (s : List Char) :
    ∃ lws body rws,
      split_ws_parts s = .Lit (String.mk lws) (String.mk body) (String.mk rws) ∧
      lws ++ body ++ rws = s ∧
      (∀ c ∈ lws, is_ws c = false) ∧
      (∀ c ∈ rws, is_ws c = false) ∧
      (∀ c, body.head? = some c → is_ws c = true) ∧
      (∀ c, body.getLast? = some c → is_ws c = true) ∧
      ((∀ c ∈ s, is_ws c = false) → split_ws_parts s = .Lit (String.mk s) "" "") := by
  by_cases hemp : s.isEmpty = true
  · have hs : s = [] := by
      cases s with
      | nil => rfl
      | cons a as => simp at hemp
    subst hs
    exact ⟨[], [], [], rfl, rfl, by simp, by simp, by simp, by simp, fun _ => rfl⟩
  · cases hpos : position is_ws s with
    | none =>
      have hall := position_eq_none hpos
      have heval : split_ws_parts s = .Lit (String.mk s) "" "" := by
        unfold split_ws_parts
        rw [if_neg hemp, hpos]
      refine ⟨s, [], [], ?_, by simp, hall, by simp, by simp, by simp, fun _ => heval⟩
      exact heval
    | some start =>
      obtain ⟨htake, c, hdrop, hc⟩ := position_eq_some hpos
      have hcel : s[start]? = some c := getElem?_of_drop_cons hdrop
      have hcmem : c ∈ s := List.getElem?_mem hcel
      have hstartlt : start < s.length := by
        by_contra hlt
        push_neg at hlt
        rw [List.getElem?_eq_none_iff.mpr hlt] at hcel
        simp at hcel
      cases hrpos : rposition is_ws s with
      | none =>
        exfalso
        unfold rposition at hrpos
        cases hrev : position is_ws s.reverse with
        | some k => rw [hrev] at hrpos; simp at hrpos
        | none =>
          have hfalse := position_eq_none hrev c (List.mem_reverse.mpr hcmem)
          rw [hc] at hfalse
          exact Bool.noConfusion hfalse
      | some e =>
        obtain ⟨ir, hrev, hire⟩ :
            ∃ ir, position is_ws s.reverse = some ir ∧ s.length - 1 - ir = e := by
          unfold rposition at hrpos
          cases hrev : position is_ws s.reverse with
          | none => rw [hrev] at hrpos; simp at hrpos
          | some ir =>
            rw [hrev] at hrpos
            exact ⟨ir, rfl, by simpa using hrpos⟩
        obtain ⟨hrtake, d, hrdrop, hd⟩ := position_eq_some hrev
        have hdel : s.reverse[ir]? = some d := getElem?_of_drop_cons hrdrop
        have hirlt : ir < s.length := by
          have hrl : ir < s.reverse.length := by
            by_contra hlt
            push_neg at hlt
            rw [List.getElem?_eq_none_iff.mpr hlt] at hdel
            simp at hdel
          simpa using hrl
        have hdeq : s[e]? = some d := by
          calc s[e]? = s[s.length - 1 - ir]? := by rw [hire]
            _ = s.reverse[ir]? := (List.getElem?_reverse hirlt).symm
            _ = some d := hdel
        have hstart_le_e : start ≤ e := by
          by_contra hlt
          push_neg at hlt
          have hmem : d ∈ s.take start := by
            have h1 : (s.take start)[e]? = some d := by
              rw [List.getElem?_take_of_lt hlt]
              exact hdeq
            exact List.getElem?_mem h1
          have hdf := htake d hmem
          rw [hd] at hdf
          exact Bool.noConfusion hdf
        have helen : e < s.length := by omega
        have heval : split_ws_parts s =
            .Lit (String.mk (s.take start))
                 (String.mk ((s.drop start).take (e + 1 - start)))
                 (String.mk (s.drop (e + 1))) := by
          unfold split_ws_parts
          rw [if_neg hemp, hpos, hrpos]
        have hbr : (s.drop start).take (e + 1 - start) ++ s.drop (e + 1) = s.drop start := by
          have h1 := List.take_append_drop (e + 1 - start) (s.drop start)
          rw [List.drop_drop] at h1
          have h2 : start + (e + 1 - start) = e + 1 := by omega
          rw [h2] at h1
          exact h1
        have hcat : s.take start ++ ((s.drop start).take (e + 1 - start) ++ s.drop (e + 1)) = s := by
          rw [hbr]
          exact List.take_append_drop start s
        have hrws : ∀ x ∈ s.drop (e + 1), is_ws x = false := by
          intro x hx
          have hxr : x ∈ (s.drop (e + 1)).reverse := List.mem_reverse.mpr hx
          rw [List.reverse_drop] at hxr
          have h3 : s.length - (e + 1) = ir := by omega
          rw [h3] at hxr
          exact hrtake x hxr
        have hbodyhead : ((s.drop start).take (e + 1 - start)).head? = some c := by
          rw [hdrop]
          have h4 : e + 1 - start = (e - start) + 1 := by omega
          rw [h4, List.take_succ_cons]
          rfl
        have hbodylast : ((s.drop start).take (e + 1 - start)).getLast? = some d := by
          rw [List.getLast?_eq_getElem?]
          have hlen : ((s.drop start).take (e + 1 - start)).length = e + 1 - start := by
            rw [List.length_take, List.length_drop]
            omega
          rw [hlen]
          have h5 : e + 1 - start - 1 = e - start := by omega
          rw [h5, List.getElem?_take_of_lt (by omega : e - start < e + 1 - start),
              List.getElem?_drop]
          have h6 : start + (e - start) = e := by omega
          rw [h6]
          exact hdeq
        refine ⟨s.take start, (s.drop start).take (e + 1 - start), s.drop (e + 1),
          heval, by rw [List.append_assoc]; exact hcat, htake, hrws, ?_, ?_, ?_⟩
        · intro x hx
          rw [hbodyhead] at hx
          have hxc := Option.some.inj hx
          rw [← hxc]
          exact hc
        · intro x hx
          rw [hbodylast] at hx
          have hxd := Option.some.inj hx
          rw [← hxd]
          exact hd
        · intro hall
          have hcf := hall c hcmem
          rw [hc] at hcf
          exact Bool.noConfusion hcf

/-- C9, witness at a concrete chunk with all three pieces non-empty. -/
theorem split_ws_parts_correct_witness :
    ∃ lws body rws,
      split_ws_parts " a\n".toList =
        .Lit (String.mk lws) (String.mk body) (String.mk rws) ∧
      lws ++ body ++ rws = " a\n".toList := by
  obtain ⟨lws, body, rws, h1, h2, _⟩ := split_ws_parts_correct " a\n".toList
  exact ⟨lws, body, rws, h1, h2⟩

/-- C10.  The grammar rejects the empty string literal: `is_not!`
inside `expr_str_lit` demands at least one byte before the closing
quote, so the literal `""` errors and a template interpolating it
aborts compilation with the whole template as unparsed tail. -/
theorem empty_str_lit_rejected :
    expr_str_lit ['\x22', '\x22'] = .Error ∧
    parse "\x7b\x7b \x22\x22 \x7d\x7d" =
      .error "unable to parse template:\n\n\x7b\x7b \x22\x22 \x7d\x7d" :=
  ⟨rfl, rfl⟩

end Askama
